import Mathlib

/-!
Shallow embedding of the dxlog document-lifecycle engine
(crates/dxlog/src: utils.rs, config.rs, md_frontmatter.rs, log_manager.rs,
hypothesis.rs, literature.rs, knowledge.rs, reference.rs).

Modelling conventions:
* `Uuid` is modelled as its canonical `String` rendering (the code only ever
  compares ids and renders them with `to_string`).
* `HashSet` fields (`tags`, `references`) are modelled as `List String`;
  the code only tests membership, subset and emptiness, which are
  order-insensitive, and a `HashSet` iteration order is unspecified anyway.
* Filesystem paths (`PathBuf`) are lists of components; the store is an
  association list from path to file.  Each stored markdown file is kept in
  parsed form (`FileEntry`), so `extract_frontmatter` on a stored file of the
  scanning kind always succeeds and a file of another kind is a parse error,
  mirroring how serde rejects a foreign status enum.  The raw text codec of
  md_frontmatter.rs is modelled separately at character level below.
* Fallible Rust code (`anyhow::Result`) returns `Except Err`; a `panic!`
  (`unwrap` on a path with no filename) is the `Err.panicked` case.
-/

namespace Dxlog

/-- Error taxonomy: each constructor stands for one of the `anyhow` error
messages the dxlog crate produces (log_manager.rs, utils.rs, reference.rs,
md_frontmatter.rs). -/
inductive Err
  | notFound
  | ambiguousId
  | duplicateTitle
  | alreadyExists
  | formatErr
  | invalidId
  | incompleteRefWarning
  | ioErr
  | panicked
deriving DecidableEq, Repr

/-- utils.rs `Author`. -/
structure Author where
  name : String
  email : String
deriving DecidableEq, Repr

/-- utils.rs `BaseLog`: the Document Identity Record shared by every kind. -/
structure BaseLog where
  id : String
  date : String
  title : String
  tags : List String
  created_by : Author
  references : List String
deriving DecidableEq, Repr

/-- A filesystem path as its components. -/
abbrev FPath := List String

/-- config.rs `StorageConfig`. -/
structure StorageConfig where
  active_dir : FPath
  archive_dir : FPath
  knowledge_base_dir : FPath
deriving DecidableEq, Repr

/-- config.rs `TemplateConfig`. -/
structure TemplateConfig where
  hypothesis : FPath
  literature : FPath
  knowledge : FPath
deriving DecidableEq, Repr

/-- config.rs `Config`. -/
structure Config where
  date_format : String
  templates : TemplateConfig
  storage : StorageConfig
  stale_days : Nat
deriving DecidableEq, Repr

/-- config.rs `impl Default for Config`. -/
def Config.default : Config where
  date_format := "%Y-%m-%d"
  templates :=
    { hypothesis := ["templates", "hypothesis.jinja"]
      literature := ["templates", "literature.jinja"]
      knowledge := ["templates", "knowledge.jinja"] }
  storage :=
    { active_dir := ["research-logs"]
      archive_dir := ["archived"]
      knowledge_base_dir := ["knowledge-base"] }
  stale_days := 14

/-- Rust `str::to_lowercase`, character by character (Rust lowercases by
Unicode, this model by ASCII; the two agree on every title the claims use). -/
def str_to_lower (s : String) : String :=
  (s.toList.map Char.toLower).asString

/-- Rust `str::starts_with`. -/
def str_starts_with (s : String) (pre : String) : Bool :=
  List.isPrefixOf pre.toList s.toList

/-- utils.rs `generate_filename`: lowercase the title, drop every character
that is neither alphanumeric nor a space, turn spaces into hyphens, and
assemble `<date>-<slug>.md`. -/
def generate_filename (title : String) (date : String) : String :=
  let safe_title :=
    (((title.toList.map Char.toLower).filter
        (fun c => c.isAlphanum || c == ' ')).map
      (fun c => if c == ' ' then '-' else c)).asString
  date ++ "-" ++ safe_title ++ ".md"

/-- utils.rs `normalize_tags`: `None` becomes the empty set. -/
def normalize_tags (tags : Option (List String)) : List String :=
  tags.getD []

/-- Mirrors `Path::extension() == Some("md")` on a file name. -/
def has_md_ext (f : String) : Bool :=
  List.isSuffixOf ".md".toList f.toList && f != ".md"

end Dxlog

namespace Dxlog

/-- utils.rs `detect_cycles` helper: the ids of the given identity records;
used only to bound the DFS for the termination measure. -/
def nodeIds (logs : List BaseLog) : List String :=
  logs.map (fun l => l.id)

/-- One step of `stack.extend(log.references)` in utils.rs `detect_cycles`:
if some record's id equals the popped id, push its outbound references. -/
def pushRefs (logs : List BaseLog) (current : String) (rest : List String) :
    List String :=
  match logs.find? (fun l => l.id == current) with
  | some log => log.references ++ rest
  | none => rest

/-- The `while let Some(current) = stack.pop()` loop of utils.rs
`detect_cycles`: pop a node; if it was already visited report a cycle,
otherwise mark it visited and push the outbound references of the record
with that id (if any). -/
def detectCyclesAux (logs : List BaseLog) (visited : List String)
    (stack : List String) : Bool :=
  match stack with
  | [] => false
  | current :: rest =>
    if h : current ∈ visited then true
    else detectCyclesAux logs (current :: visited) (pushRefs logs current rest)
termination_by (((nodeIds logs).toFinset \ visited.toFinset).card, stack.length)
decreasing_by
  simp_wf
  by_cases hmem : current ∈ nodeIds logs
  · apply Prod.Lex.left
    have hset : ((nodeIds logs).toFinset \ insert current visited.toFinset) =
        ((nodeIds logs).toFinset \ visited.toFinset).erase current := by
      ext x
      simp only [Finset.mem_sdiff, Finset.mem_insert, Finset.mem_erase,
        List.mem_toFinset]
      tauto
    rw [hset]
    apply Finset.card_erase_lt_of_mem
    simp only [Finset.mem_sdiff, List.mem_toFinset]
    exact ⟨hmem, by simpa using h⟩
  · have hfind : logs.find? (fun l => l.id == current) = none := by
      cases hf : logs.find? (fun l => l.id == current) with
      | none => rfl
      | some lg =>
        exfalso
        have heq := List.find?_some hf
        have hin : lg ∈ logs := List.mem_of_find?_eq_some hf
        exact hmem (by
          simp only [nodeIds, List.mem_map]
          exact ⟨lg, hin, by simpa using heq⟩)
    have hset : ((nodeIds logs).toFinset \ insert current visited.toFinset) =
        ((nodeIds logs).toFinset \ visited.toFinset) := by
      ext x
      simp only [Finset.mem_sdiff, Finset.mem_insert, List.mem_toFinset]
      constructor
      · rintro ⟨hx, hnx⟩
        exact ⟨hx, fun hv => hnx (Or.inr hv)⟩
      · rintro ⟨hx, hnx⟩
        refine ⟨hx, fun hv => ?_⟩
        rcases hv with hv | hv
        · exact hmem (hv ▸ hx)
        · exact hnx hv
    rw [hset]
    apply Prod.Lex.right
    simp [pushRefs, hfind]

/-- utils.rs `detect_cycles(references, new_ref, logs)`: depth-first
traversal from `new_ref`; reports `true` iff some node is popped twice.
The `references` argument is bound by the Rust signature but never read by
the body. -/
def detect_cycles (references : List String) (new_ref : String)
    (logs : List BaseLog) : Bool :=
  detectCyclesAux logs [] [new_ref]

/-- hypothesis.rs `HypothesisStatus`. -/
inductive HypothesisStatus
  | active
  | proven
  | disproven
  | inconclusive
  | suspended
  | abandoned
deriving DecidableEq, Repr, Fintype

/-- hypothesis.rs `impl ToString for HypothesisStatus`. -/
def HypothesisStatus.toStr : HypothesisStatus → String
  | .active => "active"
  | .proven => "proven"
  | .disproven => "disproven"
  | .inconclusive => "inconclusive"
  | .suspended => "suspended"
  | .abandoned => "abandoned"

/-- literature.rs `LiteratureStatus`. -/
inductive LiteratureStatus
  | inProgress
  | completed
  | archived
deriving DecidableEq, Repr, Fintype

/-- literature.rs `impl ToString for LiteratureStatus`. -/
def LiteratureStatus.toStr : LiteratureStatus → String
  | .inProgress => "in_progress"
  | .completed => "completed"
  | .archived => "archived"

/-- knowledge.rs `KnowledgeStatus`. -/
inductive KnowledgeStatus
  | draft
  | published
  | archived
deriving DecidableEq, Repr, Fintype

/-- knowledge.rs `impl ToString for KnowledgeStatus`. -/
def KnowledgeStatus.toStr : KnowledgeStatus → String
  | .draft => "draft"
  | .published => "published"
  | .archived => "archived"

/-- literature.rs `Source`. -/
structure Source where
  doi : Option String
  arxiv_url : Option String
  pdf_url : Option String
  repository_url : Option String
deriving DecidableEq, Repr

/-- literature.rs `Source::default()`. -/
def Source.default : Source := ⟨none, none, none, none⟩

/-- hypothesis.rs `HypothesisLog`. -/
structure HypothesisLog where
  base : BaseLog
  status : HypothesisStatus
deriving DecidableEq, Repr

/-- literature.rs `LiteratureLog` (the two `serde(skip)` display-only fields
`abstract_text` and `repository_description` are not persisted and are
omitted). -/
structure LiteratureLog where
  base : BaseLog
  status : LiteratureStatus
  source : Source
deriving DecidableEq, Repr

/-- knowledge.rs `KnowledgeLog`. -/
structure KnowledgeLog where
  base : BaseLog
  status : KnowledgeStatus
deriving DecidableEq, Repr

/-- hypothesis.rs `HypothesisLog::new` (the fresh `Uuid::new_v4()` and
`Local::now()` date are modelled as explicit inputs). -/
def HypothesisLog.new (title : String) (tags : List String) (author : Author)
    (id : String) (date : String) : HypothesisLog where
  base :=
    { id := id, date := date, title := title, tags := tags
      created_by := author, references := [] }
  status := .active

/-- literature.rs `LiteratureLog::new`. -/
def LiteratureLog.new (title : String) (tags : List String) (author : Author)
    (id : String) (date : String) : LiteratureLog where
  base :=
    { id := id, date := date, title := title, tags := tags
      created_by := author, references := [] }
  status := .inProgress
  source := Source.default

/-- knowledge.rs `KnowledgeLog::new`. -/
def KnowledgeLog.new (title : String) (tags : List String) (author : Author)
    (id : String) (date : String) : KnowledgeLog where
  base :=
    { id := id, date := date, title := title, tags := tags
      created_by := author, references := [] }
  status := .draft

/-- hypothesis.rs `HypothesisLog::get_target_path`: Abandoned goes to the
archive root, the three concluded statuses go to knowledge-base/hypotheses,
everything else to the active root, always keeping the filename.  `none`
models the `file_name().unwrap()` panic on a path with no last component. -/
def HypothesisLog.get_target_path (log : HypothesisLog) (config : Config)
    (current_path : FPath) : Option FPath :=
  current_path.getLast?.map fun filename =>
    match log.status with
    | .abandoned => config.storage.archive_dir ++ [filename]
    | .proven | .disproven | .inconclusive =>
        config.storage.knowledge_base_dir ++ ["hypotheses", filename]
    | _ => config.storage.active_dir ++ [filename]

/-- literature.rs `LiteratureLog::get_target_path`: every status nests under
a `literature` subdirectory of its root. -/
def LiteratureLog.get_target_path (log : LiteratureLog) (config : Config)
    (current_path : FPath) : Option FPath :=
  current_path.getLast?.map fun filename =>
    let lit_path := fun (base : FPath) => base ++ ["literature", filename]
    match log.status with
    | .archived => lit_path config.storage.archive_dir
    | .completed => lit_path config.storage.knowledge_base_dir
    | _ => lit_path config.storage.active_dir

/-- knowledge.rs `KnowledgeLog::get_target_path`. -/
def KnowledgeLog.get_target_path (log : KnowledgeLog) (config : Config)
    (current_path : FPath) : Option FPath :=
  current_path.getLast?.map fun filename =>
    match log.status with
    | .archived => config.storage.archive_dir ++ [filename]
    | .published => config.storage.knowledge_base_dir ++ [filename]
    | _ => config.storage.active_dir ++ [filename]

/-- A stored markdown document, kept in parsed form: the typed frontmatter
record of one of the three kinds plus the body text. -/
inductive FileEntry
  | hyp (log : HypothesisLog) (body : String)
  | lit (log : LiteratureLog) (body : String)
  | kno (log : KnowledgeLog) (body : String)
deriving DecidableEq, Repr

/-- The filesystem: an association list from path to stored document.  Paths
are unique by construction (`save_entry_content` refuses an existing path). -/
abbrev FS := List (FPath × FileEntry)

/-- Models `fs::read_to_string` as a lookup. -/
def FS.get (fs : FS) (p : FPath) : Option FileEntry :=
  (fs.find? (fun x => x.1 == p)).map (fun x => x.2)

/-- Removing the file at a path (the source half of `fs::rename`). -/
def FS.erase (fs : FS) (p : FPath) : FS :=
  fs.filter (fun x => x.1 != p)

/-- The capability set of research_log.rs `trait ResearchLog`, as the record
of operations the generic `LogManager<T>` consumes, plus the injection of a
kind into a stored file and the typed `extract_frontmatter::<T>` projection
(`none` on a file of another kind, mirroring the serde parse failure). -/
structure KindOps (T : Type) (S : Type) where
  base : T → BaseLog
  withRefs : T → List String → T
  status : T → S
  statusToStr : S → String
  get_target_path : T → Config → FPath → Option FPath
  proj : FileEntry → Option (T × String)
  inj : T → String → FileEntry

/-- log_manager.rs `LogManager<T>`. -/
structure LogManager (T : Type) (S : Type) where
  ops : KindOps T S
  config : Config
  search_dirs : List FPath

/-- utils.rs `list_entries(dir, "md")`: the stored files whose parent
directory is `dir` and whose filename carries the `md` extension, in store
order. -/
def list_entries (fs : FS) (dir : FPath) : List (FPath × FileEntry) :=
  fs.filter (fun e => e.1.dropLast == dir && has_md_ext (e.1.getLastD ""))

/-- The shared scan loop of log_manager.rs `find_log` / `list_logs`: parse
every listed file in order, propagating the first parse failure, and return
each record with its body and path. -/
def scanList {T S : Type} (ops : KindOps T S) :
    List (FPath × FileEntry) → Except Err (List (T × String × FPath))
  | [] => .ok []
  | e :: rest =>
    match ops.proj e.2 with
    | none => .error .formatErr
    | some lb =>
      match scanList ops rest with
      | .ok out => .ok ((lb.1, lb.2, e.1) :: out)
      | .error err => .error err

/-- All files of every search directory of the manager, parsed. -/
def scanAll {T S : Type} (m : LogManager T S) (fs : FS) :
    Except Err (List (T × String × FPath)) :=
  scanList m.ops (m.search_dirs.flatMap (fun d => list_entries fs d))

/-- log_manager.rs `find_log`: collect every record whose rendered id starts
with the given partial id; zero matches is NotFound, more than one is
AmbiguousId, exactly one is returned with its path. -/
def find_log {T S : Type} (m : LogManager T S) (fs : FS) (pid : String) :
    Except Err (T × FPath) :=
  match scanAll m fs with
  | .error e => .error e
  | .ok entries =>
    match (entries.filter
        (fun x => str_starts_with (m.ops.base x.1).id pid)).map
        (fun x => (x.1, x.2.2)) with
    | [] => .error .notFound
    | [x] => .ok x
    | _ => .error .ambiguousId

/-- log_manager.rs `list_logs`: keep a record when the optional status
filter matches (compared via `to_string`) and, when the tag filter is
non-empty, when it is a subset of the record's tags. -/
def list_logs {T S : Type} (m : LogManager T S) (fs : FS)
    (status : Option S) (tags : Option (List String)) :
    Except Err (List T) :=
  let filter_tags := normalize_tags tags
  match scanAll m fs with
  | .error e => .error e
  | .ok entries =>
    .ok ((entries.filter (fun x =>
      (match status with
       | some target_status =>
           m.ops.statusToStr (m.ops.status x.1) ==
             m.ops.statusToStr target_status
       | none => true)
      && (filter_tags.isEmpty ||
          filter_tags.all (fun t => (m.ops.base x.1).tags.contains t)))).map
      (fun x => x.1))

/-- The early-returning loop of log_manager.rs `find_existing_log`: parse
files in order and stop at the first whose title matches case-insensitively. -/
def findFirstTitle {T S : Type} (ops : KindOps T S) (title : String) :
    List (FPath × FileEntry) → Except Err (Option (String × FPath))
  | [] => .ok none
  | e :: rest =>
    match ops.proj e.2 with
    | none => .error .formatErr
    | some lb =>
      if str_to_lower (ops.base lb.1).title == str_to_lower title then
        .ok (some ((ops.base lb.1).title, e.1))
      else findFirstTitle ops title rest

/-- log_manager.rs `find_existing_log`. -/
def find_existing_log {T S : Type} (m : LogManager T S) (fs : FS)
    (title : String) : Except Err (Option (String × FPath)) :=
  findFirstTitle m.ops title (m.search_dirs.flatMap (fun d => list_entries fs d))

/-- utils.rs `save_entry_content`: refuse an occupied path, otherwise write
the file (ensure_directory is a no-op in this model). -/
def save_entry_content (fs : FS) (p : FPath) (e : FileEntry) :
    Except Err FS :=
  if fs.any (fun x => x.1 == p) then .error .alreadyExists
  else .ok (fs ++ [(p, e)])

/-- log_manager.rs `save_log`: duplicate-title check over the search scope
first, then write the rendered content under the ACTIVE root at the filename
derived from title and date. -/
def save_log {T S : Type} (m : LogManager T S) (fs : FS) (log : T)
    (content : String) : Except Err (FPath × FS) :=
  match find_existing_log m fs (m.ops.base log).title with
  | .error e => .error e
  | .ok (some _) => .error .duplicateTitle
  | .ok none =>
    let file_name :=
      generate_filename (m.ops.base log).title (m.ops.base log).date
    let file_path := m.config.storage.active_dir ++ [file_name]
    match save_entry_content fs file_path (m.ops.inj log content) with
    | .error e => .error e
    | .ok fs1 => .ok (file_path, fs1)

/-- log_manager.rs `update_log`: reload the body from the current path,
re-serialize the mutated record over it, compute the target path from the
record's status, rename and rewrite.  The rename-then-rewrite pair acts on
the store as: drop the old path, drop whatever the rename would clobber at
the target, append the rewritten file at the target. -/
def update_log {T S : Type} (m : LogManager T S) (fs : FS) (log : T)
    (file_path : FPath) : Except Err FS :=
  match FS.get fs file_path with
  | none => .error .ioErr
  | some entry =>
    match m.ops.proj entry with
    | none => .error .formatErr
    | some lb =>
      match m.ops.get_target_path log m.config file_path with
      | none => .error .panicked
      | some new_path =>
        .ok (((fs.erase file_path).erase new_path) ++
          [(new_path, m.ops.inj log lb.2)])

/-- The `ResearchLog` capability instance of hypothesis.rs. -/
def hypOps : KindOps HypothesisLog HypothesisStatus where
  base l := l.base
  withRefs l rs := { l with base := { l.base with references := rs } }
  status l := l.status
  statusToStr := HypothesisStatus.toStr
  get_target_path := HypothesisLog.get_target_path
  proj e :=
    match e with
    | .hyp l b => some (l, b)
    | _ => none
  inj l b := .hyp l b

/-- The `ResearchLog` capability instance of literature.rs. -/
def litOps : KindOps LiteratureLog LiteratureStatus where
  base l := l.base
  withRefs l rs := { l with base := { l.base with references := rs } }
  status l := l.status
  statusToStr := LiteratureStatus.toStr
  get_target_path := LiteratureLog.get_target_path
  proj e :=
    match e with
    | .lit l b => some (l, b)
    | _ => none
  inj l b := .lit l b

/-- The `ResearchLog` capability instance of knowledge.rs. -/
def knoOps : KindOps KnowledgeLog KnowledgeStatus where
  base l := l.base
  withRefs l rs := { l with base := { l.base with references := rs } }
  status l := l.status
  statusToStr := KnowledgeStatus.toStr
  get_target_path := KnowledgeLog.get_target_path
  proj e :=
    match e with
    | .kno l b => some (l, b)
    | _ => none
  inj l b := .kno l b

/-- hypothesis.rs `HypothesisManager::new`: search scope = active root and
knowledge-base/hypotheses. -/
def HypothesisManager.new (config : Config) :
    LogManager HypothesisLog HypothesisStatus where
  ops := hypOps
  config := config
  search_dirs :=
    [config.storage.active_dir,
     config.storage.knowledge_base_dir ++ ["hypotheses"]]

/-- literature.rs `LiteratureManager::new`: search scope = active/literature
and knowledge-base/literature. -/
def LiteratureManager.new (config : Config) :
    LogManager LiteratureLog LiteratureStatus where
  ops := litOps
  config := config
  search_dirs :=
    [config.storage.active_dir ++ ["literature"],
     config.storage.knowledge_base_dir ++ ["literature"]]

/-- knowledge.rs `KnowledgeManager::new`: search scope = active root and the
knowledge-base root. -/
def KnowledgeManager.new (config : Config) :
    LogManager KnowledgeLog KnowledgeStatus where
  ops := knoOps
  config := config
  search_dirs :=
    [config.storage.active_dir, config.storage.knowledge_base_dir]

/-- One hexadecimal digit. -/
def isHexDigit (c : Char) : Bool :=
  c.isDigit || (('a' ≤ c) && (c ≤ 'f')) || (('A' ≤ c) && (c ≤ 'F'))

/-- Models `Uuid::parse_str` followed by the later canonical rendering, restricted
to the hyphenated form (the only one the CLI produces): a 36-character
8-4-4-4-12 hex string; the parsed value renders back in lowercase. -/
def uuid_parse (s : String) : Option String :=
  let cs := s.toList
  if cs.length == 36 &&
      (List.range 36).all (fun i =>
        if i == 8 || i == 13 || i == 18 || i == 23 then
          cs.getD i ' ' == '-'
        else isHexDigit (cs.getD i ' ')) then
    some (str_to_lower s)
  else none

/-- Models `HashSet::insert` on a reference set. -/
def refs_insert (rs : List String) (x : String) : List String :=
  if x ∈ rs then rs else rs ++ [x]

/-- reference.rs `is_reference_complete`: resolve the target id through the
Hypothesis, then Literature, then Knowledge manager; report whether its
status is terminal for its kind; error when no manager resolves it. -/
def is_reference_complete (cfg : Config) (fs : FS) (target_id : String) :
    Except Err Bool :=
  match find_log (HypothesisManager.new cfg) fs target_id with
  | .ok x =>
      .ok (match x.1.status with
        | .proven | .disproven | .inconclusive => true
        | _ => false)
  | .error _ =>
    match find_log (LiteratureManager.new cfg) fs target_id with
    | .ok x => .ok (x.1.status == .completed)
    | .error _ =>
      match find_log (KnowledgeManager.new cfg) fs target_id with
      | .ok x => .ok (x.1.status == .published)
      | .error _ => .error .notFound

/-- reference.rs `add_reference`: parse the target id, resolve the source
through the three managers in order, insert the target uuid into its
reference set and persist via `update_log`.  No completeness and no cycle
check happens on this path. -/
def add_reference (cfg : Config) (fs : FS) (source_id : String)
    (target_id : String) : Except Err FS :=
  match uuid_parse target_id with
  | none => .error .invalidId
  | some target_uuid =>
    match find_log (HypothesisManager.new cfg) fs source_id with
    | .ok x =>
        update_log (HypothesisManager.new cfg) fs
          (hypOps.withRefs x.1 (refs_insert x.1.base.references target_uuid))
          x.2
    | .error _ =>
      match find_log (LiteratureManager.new cfg) fs source_id with
      | .ok x =>
          update_log (LiteratureManager.new cfg) fs
            (litOps.withRefs x.1 (refs_insert x.1.base.references target_uuid))
            x.2
      | .error _ =>
        match find_log (KnowledgeManager.new cfg) fs source_id with
        | .ok x =>
            update_log (KnowledgeManager.new cfg) fs
              (knoOps.withRefs x.1
                (refs_insert x.1.base.references target_uuid))
              x.2
        | .error _ => .error .notFound

/-- reference.rs `force_add_reference`: as `add_reference`, but first gate
on `is_reference_complete`; an incomplete target fails with the advisory
warning before any document is touched. -/
def force_add_reference (cfg : Config) (fs : FS) (source_id : String)
    (target_id : String) : Except Err FS :=
  match uuid_parse target_id with
  | none => .error .invalidId
  | some target_uuid =>
    match is_reference_complete cfg fs target_id with
    | .error e => .error e
    | .ok false => .error .incompleteRefWarning
    | .ok true =>
      match find_log (HypothesisManager.new cfg) fs source_id with
      | .ok x =>
          update_log (HypothesisManager.new cfg) fs
            (hypOps.withRefs x.1 (refs_insert x.1.base.references target_uuid))
            x.2
      | .error _ =>
        match find_log (LiteratureManager.new cfg) fs source_id with
        | .ok x =>
            update_log (LiteratureManager.new cfg) fs
              (litOps.withRefs x.1
                (refs_insert x.1.base.references target_uuid))
              x.2
        | .error _ =>
          match find_log (KnowledgeManager.new cfg) fs source_id with
          | .ok x =>
              update_log (KnowledgeManager.new cfg) fs
                (knoOps.withRefs x.1
                  (refs_insert x.1.base.references target_uuid))
                x.2
          | .error _ => .error .notFound

end Dxlog

namespace Dxlog

/-!
Character-level model of md_frontmatter.rs.  Rust strings are lists of
characters here; `splitn(3, "---")`, `trim` and the `format!` of
`update_markdown_frontmatter` are translated directly.  The serde_yaml
serializer and parser are external collaborators and appear as the
parameters `ser` and `par`.
-/

/-- The YAML_SEPARATOR of md_frontmatter.rs. -/
def hyphen3 : List Char := ['-', '-', '-']

/-- Leftmost occurrence of `sep`: `some (pre, post)` splits the input as
`pre ++ sep ++ post` at the first occurrence. -/
def findSplit (sep : List Char) : List Char → Option (List Char × List Char)
  | [] => if List.isPrefixOf sep [] then some ([], []) else none
  | c :: rest =>
    if List.isPrefixOf sep (c :: rest) then
      some ([], List.drop sep.length (c :: rest))
    else
      (findSplit sep rest).map (fun pr => (c :: pr.1, pr.2))

/-- Rust `str::splitn(n, sep)`: at most `n` parts, the last one carrying the
unsplit remainder. -/
def splitn (n : Nat) (sep : List Char) (s : List Char) : List (List Char) :=
  match n with
  | 0 => []
  | 1 => [s]
  | n + 2 =>
    match findSplit sep s with
    | some pr => pr.1 :: splitn (n + 1) sep pr.2
    | none => [s]

/-- Rust `str::trim` (ASCII whitespace; the claims use ASCII text). -/
def trimL (s : List Char) : List Char :=
  ((s.dropWhile Char.isWhitespace).reverse.dropWhile Char.isWhitespace).reverse

/-- md_frontmatter.rs `extract_frontmatter::<T>`: split the document on the
first two `---` occurrences; the shape must be an empty lead, a header block
and a body; parse the trimmed header, return it with the trimmed body. -/
def extract_frontmatter {H : Type} (par : List Char → Option H)
    (content : List Char) : Except Err (H × List Char) :=
  match splitn 3 hyphen3 content with
  | [[], yaml, body] =>
    match par (trimL yaml) with
    | some fm => .ok (fm, trimL body)
    | none => .error .formatErr
  | _ => .error .formatErr

/-- md_frontmatter.rs `update_markdown_frontmatter`:
`format!("---\n{}\n---\n{}", yaml, content)`. -/
def update_markdown_frontmatter {H : Type} (ser : H → List Char) (fm : H)
    (content : List Char) : List Char :=
  hyphen3 ++ '\n' :: (ser fm ++ '\n' :: (hyphen3 ++ '\n' :: content))

/-!
Concrete fixtures used by counterexamples and witnesses.
-/

/-- A fixed author (git identity is an external collaborator). -/
def auth0 : Author := ⟨"alice", "alice at example dot com"⟩

/-- Identity record A referencing B, for the spec cycle law scenario. -/
def logA : BaseLog := ⟨"A", "2024-01-01", "A", [], auth0, ["B"]⟩

/-- Identity record B referencing C. -/
def logB : BaseLog := ⟨"B", "2024-01-01", "B", [], auth0, ["C"]⟩

/-- Identity record C with no references yet. -/
def logC : BaseLog := ⟨"C", "2024-01-01", "C", [], auth0, []⟩

/-- Sample canonical uuid strings. -/
def uuidH : String := "11111111-1111-1111-1111-111111111111"

/-- Uuid of the completed literature fixture. -/
def uuidL : String := "22222222-2222-2222-2222-222222222222"

/-- Uuid of the in-progress literature fixture. -/
def uuidL2 : String := "33333333-3333-3333-3333-333333333333"

/-- Uuid of the first knowledge fixture. -/
def uuidK1 : String := "44444444-4444-4444-4444-444444444444"

/-- Uuid of the second knowledge fixture. -/
def uuidK2 : String := "55555555-5555-5555-5555-555555555555"

/-- A stored active hypothesis. -/
def hyp1 : HypothesisLog :=
  ⟨⟨uuidH, "2024-01-02", "Photon entanglement decay", ["quantum"], auth0, []⟩,
   .active⟩

/-- Path of `hyp1` in the active root. -/
def pHyp1 : FPath := ["research-logs", "2024-01-02-photon-entanglement-decay.md"]

/-- A stored completed literature review. -/
def lit1 : LiteratureLog :=
  ⟨⟨uuidL, "2024-01-03", "Paper One", ["ml"], auth0, []⟩, .completed,
   Source.default⟩

/-- Path of `lit1` under knowledge-base/literature. -/
def pLit1 : FPath := ["knowledge-base", "literature", "2024-01-03-paper-one.md"]

/-- A stored in-progress literature review. -/
def lit2 : LiteratureLog :=
  ⟨⟨uuidL2, "2024-01-04", "Paper Two", [], auth0, []⟩, .inProgress,
   Source.default⟩

/-- Path of `lit2` under active/literature. -/
def pLit2 : FPath := ["research-logs", "literature", "2024-01-04-paper-two.md"]

/-- A store holding one hypothesis and two literature reviews. -/
def fsW : FS :=
  [(pHyp1, .hyp hyp1 "b1"), (pLit1, .lit lit1 "b2"), (pLit2, .lit lit2 "b3")]

/-- A store holding only the active hypothesis. -/
def fsH : FS := [(pHyp1, .hyp hyp1 "b1")]

/-- A store holding only the in-progress literature review. -/
def fsL : FS := [(pLit2, .lit lit2 "b3")]

/-- The parent directory the spec placement rule for Hypothesis assigns to
each status (knowledge-base/hypotheses for Proven, Disproven and
Inconclusive, the archive root for Abandoned, the active root otherwise),
written from the claim to be compared against the code's
`HypothesisLog.get_target_path`. -/
def hypPlacementDir (s : HypothesisStatus) (cfg : Config) : FPath :=
  match s with
  | .proven | .disproven | .inconclusive =>
      cfg.storage.knowledge_base_dir ++ ["hypotheses"]
  | .abandoned => cfg.storage.archive_dir
  | _ => cfg.storage.active_dir

/-- A knowledge entry tagged a, b, c. -/
def kdoc1 : KnowledgeLog :=
  ⟨⟨uuidK1, "2024-01-05", "Alpha", ["a", "b", "c"], auth0, []⟩, .draft⟩

/-- A knowledge entry tagged only a. -/
def kdoc2 : KnowledgeLog :=
  ⟨⟨uuidK2, "2024-01-06", "Beta", ["a"], auth0, []⟩, .draft⟩

/-- Path of `kdoc1`. -/
def pK1 : FPath := ["research-logs", "2024-01-05-alpha.md"]

/-- Path of `kdoc2`. -/
def pK2 : FPath := ["research-logs", "2024-01-06-beta.md"]

/-- A store holding the two knowledge entries. -/
def fsK : FS := [(pK1, .kno kdoc1 "x"), (pK2, .kno kdoc2 "y")]

/-- A fresh literature review as `create` builds it (status InProgress). -/
def litNew : LiteratureLog :=
  LiteratureLog.new "Attention" ["ml"] auth0
    "66666666-6666-6666-6666-666666666666" "2024-01-01"

/-- An archived literature review whose title matches `litNew` up to case. -/
def litArc : LiteratureLog :=
  ⟨⟨"77777777-7777-7777-7777-777777777777", "2023-01-01", "ATTENTION", [],
    auth0, []⟩, .archived, Source.default⟩

/-- A store holding only the archived `litArc`. -/
def fsArc : FS :=
  [(["archived", "literature", "2023-01-01-attention.md"],
    .lit litArc "z")]

/-- A fresh knowledge entry with an unused title. -/
def kNew : KnowledgeLog :=
  KnowledgeLog.new "Gamma" [] auth0
    "88888888-8888-8888-8888-888888888888" "2024-01-07"

/-- A fresh knowledge entry whose title matches `kdoc1` up to case. -/
def kDup : KnowledgeLog :=
  KnowledgeLog.new "ALPHA" [] auth0
    "99999999-9999-9999-9999-999999999999" "2024-01-08"

/-- Concrete serializer standing for serde_yaml on a one-field record. -/
def yaml0 : List Char := "title: T".toList

/-- The serializer of the codec fixture. -/
def ser0 : Unit → List Char := fun _ => yaml0

/-- The parser of the codec fixture: accepts exactly `yaml0`. -/
def par0 : List Char → Option Unit := fun s => if s = yaml0 then some () else none

/-- A serialized one-field header whose field value contains three hyphens,
exactly as serde_yaml renders the plain scalar of a record field holding
the text a---b. -/
def yaml1 : List Char := "t: a---b".toList

/-- The serializer of the second codec fixture. -/
def ser1 : Unit → List Char := fun _ => yaml1

/-- The parser of the second codec fixture: accepts exactly `yaml1`, so the
header round-trips semantically through serialize and parse. -/
def par1 : List Char → Option Unit := fun s => if s = yaml1 then some () else none

end Dxlog

namespace Dxlog

/-!
Theorems.  Helper lemmas come first; the claim theorems follow, one per
claim, each with its witness or counterexample where required.
-/

/-- Unfolds `update_log` on a readable, parseable hypothesis file. -/
theorem update_log_hyp_eq (cfg : Config) (fs : FS) (log : HypothesisLog)
    (p : FPath) (old : HypothesisLog) (body : String) (np : FPath)
    (hget : FS.get fs p = some (.hyp old body))
    (htgt : HypothesisLog.get_target_path log cfg p = some np) :
    update_log (HypothesisManager.new cfg) fs log p =
      .ok (((fs.erase p).erase np) ++ [(np, .hyp log body)]) := by
  simp only [update_log, hget, HypothesisManager.new, hypOps, htgt]

/-- C1: the claim states the traversal must report true for the
A references B, B references C universe when invoked with C's reference set
and candidate A; the code's DFS from A visits A, B, C once each and never
revisits a node, so `detect_cycles` returns false there, even though adding
that edge would close the cycle C to A to B to C. -/
theorem detect_cycles_transitive_case :
    detect_cycles logC.references "A" [logA, logB, logC] = false := by
  simp [detect_cycles, detectCyclesAux, pushRefs, logA, logB, logC, auth0,
    nodeIds]

/-- C9: the result of `detect_cycles` never depends on its first argument,
the source record's current reference set: the Rust body never reads it. -/
theorem detect_cycles_ignores_current_refs :
    ∀ (r1 r2 : List String) (c : String) (L : List BaseLog),
      detect_cycles r1 c L = detect_cycles r2 c L :=
  fun _ _ _ _ => rfl

/-- C2: `save_log` writes a freshly created Literature document (status
InProgress) to the active ROOT, not to active/literature where the
literature placement rule maps InProgress; the created file even sits
outside the literature search scope. -/
theorem save_log_literature_misplaced :
    save_log (LiteratureManager.new Config.default) [] litNew "body" =
      .ok (["research-logs", "2024-01-01-attention.md"],
        [(["research-logs", "2024-01-01-attention.md"], .lit litNew "body")]) ∧
    LiteratureLog.get_target_path litNew Config.default
        ["research-logs", "2024-01-01-attention.md"] =
      some ["research-logs", "literature", "2024-01-01-attention.md"] ∧
    (["research-logs", "2024-01-01-attention.md"] : FPath).dropLast ≠
      (["research-logs", "literature", "2024-01-01-attention.md"] : FPath).dropLast ∧
    (["research-logs", "2024-01-01-attention.md"] : FPath).dropLast ∉
      (LiteratureManager.new Config.default).search_dirs := by
  refine ⟨rfl, rfl, by decide, by decide⟩

/-- C7: a Hypothesis document at any current path relocates, on
`update_log` after a status change, to the directory its new status maps to
(knowledge-base/hypotheses for Proven/Disproven/Inconclusive, the archive
root for Abandoned, the active root otherwise) with the filename component
unchanged: only the parent directory changes. -/
theorem hypothesis_update_relocates (cfg : Config) (b : BaseLog)
    (s : HypothesisStatus) (fs : FS) (d : FPath) (fn : String)
    (old : HypothesisLog) (body : String)
    (hget : FS.get fs (d ++ [fn]) = some (.hyp old body)) :
    HypothesisLog.get_target_path ⟨b, s⟩ cfg (d ++ [fn]) =
      some (hypPlacementDir s cfg ++ [fn]) ∧
    update_log (HypothesisManager.new cfg) fs ⟨b, s⟩ (d ++ [fn]) =
      .ok (((fs.erase (d ++ [fn])).erase (hypPlacementDir s cfg ++ [fn])) ++
        [(hypPlacementDir s cfg ++ [fn], .hyp ⟨b, s⟩ body)]) ∧
    (hypPlacementDir s cfg ++ [fn]).getLast? = some fn := by
  have h1 : HypothesisLog.get_target_path ⟨b, s⟩ cfg (d ++ [fn]) =
      some (hypPlacementDir s cfg ++ [fn]) := by
    simp only [HypothesisLog.get_target_path, List.getLast?_concat]
    cases s <;> simp [hypPlacementDir]
  exact ⟨h1, update_log_hyp_eq cfg fs ⟨b, s⟩ (d ++ [fn]) old body _ hget h1,
    List.getLast?_concat _⟩

/-- Witness for C7 at a concrete store: relocating the stored hypothesis to
Proven targets knowledge-base/hypotheses with the same filename. -/
theorem hypothesis_update_relocates_wit :
    HypothesisLog.get_target_path ⟨hyp1.base, .proven⟩ Config.default
        (["research-logs"] ++ ["2024-01-02-photon-entanglement-decay.md"]) =
      some (hypPlacementDir .proven Config.default ++
        ["2024-01-02-photon-entanglement-decay.md"]) ∧
    (hypPlacementDir .proven Config.default ++
        ["2024-01-02-photon-entanglement-decay.md"]).getLast? =
      some "2024-01-02-photon-entanglement-decay.md" := by
  have h := hypothesis_update_relocates Config.default hyp1.base .proven fsW
    ["research-logs"] "2024-01-02-photon-entanglement-decay.md" hyp1 "b1" rfl
  exact ⟨h.1, h.2.2⟩

/-- C5: partial-id resolution over a kind's search scope: with the scan of
the scope in hand, zero records whose id starts with the given prefix yields
NotFound, exactly one yields that record and its path, and two or more yield
AmbiguousId. -/
theorem find_log_resolution {T S : Type} (m : LogManager T S) (fs : FS)
    (pid : String) (entries : List (T × String × FPath))
    (hscan : scanAll m fs = .ok entries) :
    (entries.filter (fun x => str_starts_with (m.ops.base x.1).id pid) = [] →
      find_log m fs pid = .error .notFound) ∧
    (∀ x, entries.filter
        (fun x => str_starts_with (m.ops.base x.1).id pid) = [x] →
      find_log m fs pid = .ok (x.1, x.2.2)) ∧
    (2 ≤ (entries.filter
        (fun x => str_starts_with (m.ops.base x.1).id pid)).length →
      find_log m fs pid = .error .ambiguousId) := by
  have hfl : find_log m fs pid =
      (match (entries.filter
          (fun x => str_starts_with (m.ops.base x.1).id pid)).map
          (fun x => (x.1, x.2.2)) with
        | [] => .error .notFound
        | [x] => .ok x
        | _ => .error .ambiguousId) := by
    simp only [find_log, hscan]
  refine ⟨?_, ?_, ?_⟩
  · intro h
    rw [hfl, h]
    rfl
  · intro x h
    rw [hfl, h]
    rfl
  · intro h
    rcases hms : entries.filter
        (fun x => str_starts_with (m.ops.base x.1).id pid) with
      _ | ⟨a, _ | ⟨c, l2⟩⟩
    · rw [hms] at h
      simp at h
    · rw [hms] at h
      simp at h
    · rw [hfl, hms]
      rfl

/-- Witness for C5 on a concrete two-document knowledge store: a unique
prefix resolves, an unused prefix is NotFound, a shared prefix is
AmbiguousId. -/
theorem find_log_resolution_wit :
    find_log (KnowledgeManager.new Config.default) fsK "4" =
      .ok (kdoc1, pK1) ∧
    find_log (KnowledgeManager.new Config.default) fsK "9" =
      .error .notFound ∧
    find_log (KnowledgeManager.new Config.default) fsK "" =
      .error .ambiguousId := by
  refine ⟨?_, ?_, ?_⟩
  · exact (find_log_resolution (KnowledgeManager.new Config.default) fsK "4"
      [(kdoc1, "x", pK1), (kdoc2, "y", pK2)] rfl).2.1 (kdoc1, "x", pK1) rfl
  · exact (find_log_resolution (KnowledgeManager.new Config.default) fsK "9"
      [(kdoc1, "x", pK1), (kdoc2, "y", pK2)] rfl).1 rfl
  · exact (find_log_resolution (KnowledgeManager.new Config.default) fsK ""
      [(kdoc1, "x", pK1), (kdoc2, "y", pK2)] rfl).2.2 (by decide)

/-- The tag-filter boolean of `list_logs` holds exactly when every filter
tag is among the record's tags. -/
theorem tags_filter_iff (l tags' : List String) :
    (l.isEmpty || l.all (fun t => tags'.contains t)) = true ↔
      ∀ tg ∈ l, tg ∈ tags' := by
  cases l with
  | nil => simp
  | cons a l =>
    simp [List.all_eq_true, List.elem_iff]

/-- C6: `list_logs` returns exactly the scanned records whose status equals
the optional status filter (compared via its string rendering, which is
injective per kind) and whose tag set contains every filter tag; a record
tagged a, b, c passes the filter a, b while a record tagged only a does
not. -/
theorem list_logs_filter_exact {T S : Type} (m : LogManager T S) (fs : FS)
    (status : Option S) (tags : Option (List String))
    (entries : List (T × String × FPath))
    (hscan : scanAll m fs = .ok entries) :
    list_logs m fs status tags =
      .ok ((entries.filter (fun x =>
        (match status with
         | some target_status =>
             m.ops.statusToStr (m.ops.status x.1) ==
               m.ops.statusToStr target_status
         | none => true)
        && ((normalize_tags tags).isEmpty ||
            (normalize_tags tags).all
              (fun t => (m.ops.base x.1).tags.contains t)))).map
        (fun x => x.1)) ∧
    (∀ x ∈ entries,
      (((match status with
         | some target_status =>
             m.ops.statusToStr (m.ops.status x.1) ==
               m.ops.statusToStr target_status
         | none => true)
        && ((normalize_tags tags).isEmpty ||
            (normalize_tags tags).all
              (fun t => (m.ops.base x.1).tags.contains t))) = true ↔
      ((∀ t, status = some t →
          m.ops.statusToStr (m.ops.status x.1) = m.ops.statusToStr t) ∧
       ∀ tg ∈ normalize_tags tags, tg ∈ (m.ops.base x.1).tags))) ∧
    list_logs (KnowledgeManager.new Config.default) fsK none
        (some ["a", "b"]) = .ok [kdoc1] ∧
    (∀ a b : HypothesisStatus, a.toStr = b.toStr → a = b) ∧
    (∀ a b : LiteratureStatus, a.toStr = b.toStr → a = b) ∧
    (∀ a b : KnowledgeStatus, a.toStr = b.toStr → a = b) := by
  refine ⟨?_, ?_, rfl, by decide, by decide, by decide⟩
  · simp only [list_logs, hscan]
  · intro x _
    rw [Bool.and_eq_true]
    constructor
    · rintro ⟨hst, htg⟩
      refine ⟨?_, (tags_filter_iff _ _).mp htg⟩
      intro t ht
      subst ht
      simpa using hst
    · rintro ⟨hst, htg⟩
      refine ⟨?_, (tags_filter_iff _ _).mpr htg⟩
      cases status with
      | none => rfl
      | some t => simpa using hst t rfl

/-- Witness for C6 on the concrete knowledge store, matching both a status
filter and a tag filter. -/
theorem list_logs_filter_wit :
    list_logs (KnowledgeManager.new Config.default) fsK (some .draft)
      (some ["a", "b"]) = .ok [kdoc1] := by
  rw [(list_logs_filter_exact (KnowledgeManager.new Config.default) fsK
    (some .draft) (some ["a", "b"])
    [(kdoc1, "x", pK1), (kdoc2, "y", pK2)] rfl).1]
  rfl

/-- When the scan of a file list succeeds, the early-returning title lookup
returns the first scanned record whose lowercased title matches. -/
theorem findFirstTitle_of_scan {T S : Type} (ops : KindOps T S)
    (title : String) (l : List (FPath × FileEntry))
    (entries : List (T × String × FPath))
    (hscan : scanList ops l = .ok entries) :
    findFirstTitle ops title l =
      .ok ((entries.find? (fun x =>
          str_to_lower (ops.base x.1).title == str_to_lower title)).map
        (fun x => ((ops.base x.1).title, x.2.2))) := by
  induction l generalizing entries with
  | nil =>
    cases hscan
    rfl
  | cons e rest ih =>
    revert hscan
    simp only [scanList, findFirstTitle]
    cases hp : ops.proj e.2 with
    | none => intro hscan; cases hscan
    | some lb =>
      cases hrest : scanList ops rest with
      | error err => intro hscan; cases hscan
      | ok out =>
        intro hscan
        cases hscan
        by_cases ht :
            (str_to_lower (ops.base lb.1).title == str_to_lower title) = true
        · simp [List.find?, ht]
        · rw [Bool.not_eq_true] at ht
          simp only [List.find?, ht, if_false]
          simpa using ih out hrest

/-- C4 (amended): creation fails with DuplicateTitle exactly when a
case-insensitive title match exists among the files of the kind's configured
search directories, before anything is written; with no such match it fails
with AlreadyExists when the derived active-root path is occupied and
otherwise writes the new document there and succeeds. -/
theorem save_log_title_cases {T S : Type} (m : LogManager T S) (fs : FS)
    (log : T) (content : String) (entries : List (T × String × FPath))
    (hscan : scanAll m fs = .ok entries) :
    ((∃ x ∈ entries, str_to_lower (m.ops.base x.1).title =
        str_to_lower (m.ops.base log).title) →
      save_log m fs log content = .error .duplicateTitle) ∧
    ((∀ x ∈ entries, str_to_lower (m.ops.base x.1).title ≠
        str_to_lower (m.ops.base log).title) →
      ((m.config.storage.active_dir ++
          [generate_filename (m.ops.base log).title (m.ops.base log).date]) ∈
          fs.map Prod.fst →
        save_log m fs log content = .error .alreadyExists) ∧
      ((m.config.storage.active_dir ++
          [generate_filename (m.ops.base log).title (m.ops.base log).date]) ∉
          fs.map Prod.fst →
        save_log m fs log content =
          .ok (m.config.storage.active_dir ++
              [generate_filename (m.ops.base log).title (m.ops.base log).date],
            fs ++ [(m.config.storage.active_dir ++
              [generate_filename (m.ops.base log).title
                (m.ops.base log).date],
              m.ops.inj log content)]))) := by
  have hfe : find_existing_log m fs (m.ops.base log).title =
      .ok ((entries.find? (fun x =>
          str_to_lower (m.ops.base x.1).title ==
            str_to_lower (m.ops.base log).title)).map
        (fun x => ((m.ops.base x.1).title, x.2.2))) :=
    findFirstTitle_of_scan m.ops (m.ops.base log).title _ entries hscan
  constructor
  · rintro ⟨x, hx, htl⟩
    have hsome : (entries.find? (fun x =>
        str_to_lower (m.ops.base x.1).title ==
          str_to_lower (m.ops.base log).title)).isSome = true := by
      rw [List.find?_isSome]
      exact ⟨x, hx, by simpa using htl⟩
    obtain ⟨y, hy⟩ := Option.isSome_iff_exists.mp hsome
    simp only [save_log, hfe, hy]
    rfl
  · intro hnone
    have hfind : entries.find? (fun x =>
        str_to_lower (m.ops.base x.1).title ==
          str_to_lower (m.ops.base log).title) = none := by
      rw [List.find?_eq_none]
      intro x hx
      simpa using hnone x hx
    constructor
    · intro hocc
      have hany : fs.any (fun x => x.1 ==
          m.config.storage.active_dir ++
            [generate_filename (m.ops.base log).title
              (m.ops.base log).date]) = true := by
        rw [List.any_eq_true]
        obtain ⟨x, hx, hx1⟩ := List.mem_map.mp hocc
        exact ⟨x, hx, by simpa using hx1⟩
      simp only [save_log, hfe, hfind, Option.map_none, save_entry_content,
        hany]
      rfl
    · intro hfree
      have hany : fs.any (fun x => x.1 ==
          m.config.storage.active_dir ++
            [generate_filename (m.ops.base log).title
              (m.ops.base log).date]) = false := by
        rw [List.any_eq_false]
        intro x hx hx1
        exact hfree (List.mem_map.mpr ⟨x, hx, by simpa using hx1⟩)
      simp only [save_log, hfe, hfind, Option.map_none, save_entry_content,
        hany]
      rfl

/-- Witness for C4 on the concrete knowledge store: a case-insensitive
duplicate title is refused, a fresh title is created at the derived
active-root path. -/
theorem save_log_title_cases_wit :
    save_log (KnowledgeManager.new Config.default) fsK kDup "c" =
      .error .duplicateTitle ∧
    save_log (KnowledgeManager.new Config.default) fsK kNew "c" =
      .ok (["research-logs", "2024-01-07-gamma.md"],
        fsK ++ [(["research-logs", "2024-01-07-gamma.md"],
          .kno kNew "c")]) := by
  constructor
  · exact (save_log_title_cases (KnowledgeManager.new Config.default) fsK
      kDup "c" [(kdoc1, "x", pK1), (kdoc2, "y", pK2)] rfl).1
      ⟨(kdoc1, "x", pK1), by simp, rfl⟩
  · exact ((save_log_title_cases (KnowledgeManager.new Config.default) fsK
      kNew "c" [(kdoc1, "x", pK1), (kdoc2, "y", pK2)] rfl).2
      (by decide)).2 (by decide)

/-- Counterexample to C4 as stated: the archive is one of Literature's
possible storage locations, yet an archived review whose title matches the
new one up to case does not block creation: `save_log` succeeds instead of
failing with DuplicateTitle, because the duplicate check scans only the two
configured search directories. -/
theorem save_log_archived_title_cex :
    (["archived", "literature", "2023-01-01-attention.md"],
      FileEntry.lit litArc "z") ∈ fsArc ∧
    LiteratureLog.get_target_path litArc Config.default
        ["archived", "literature", "2023-01-01-attention.md"] =
      some ["archived", "literature", "2023-01-01-attention.md"] ∧
    str_to_lower litArc.base.title = str_to_lower litNew.base.title ∧
    save_log (LiteratureManager.new Config.default) fsArc litNew "body" =
      .ok (["research-logs", "2024-01-01-attention.md"],
        fsArc ++ [(["research-logs", "2024-01-01-attention.md"],
          .lit litNew "body")]) ∧
    save_log (LiteratureManager.new Config.default) fsArc litNew "body" ≠
      .error .duplicateTitle := by
  have h4 : save_log (LiteratureManager.new Config.default) fsArc litNew
      "body" = .ok (["research-logs", "2024-01-01-attention.md"],
        fsArc ++ [(["research-logs", "2024-01-01-attention.md"],
          .lit litNew "body")]) := rfl
  refine ⟨by simp [fsArc], rfl, rfl, h4, ?_⟩
  rw [h4]
  exact fun hcon => Except.noConfusion hcon

/-- C8: `force_add_reference` first evaluates target completeness through
`is_reference_complete` — true iff the target resolves to a Hypothesis with
status Proven, Disproven or Inconclusive, a Literature review with status
Completed or a Knowledge entry with status Published, probing the kinds in
that order, and NotFound when no kind resolves it — and on an incomplete
target fails with the IncompleteReferenceWarning advisory, touching no
document; on a complete target it inserts the parsed target id into the
resolved source's reference set and persists via `update_log`. -/
theorem force_add_reference_gating (cfg : Config) (fs : FS) (tid : String) :
    (∀ x, find_log (HypothesisManager.new cfg) fs tid = .ok x →
      is_reference_complete cfg fs tid =
        .ok (match x.1.status with
          | .proven | .disproven | .inconclusive => true
          | _ => false)) ∧
    (∀ e1 x, find_log (HypothesisManager.new cfg) fs tid = .error e1 →
      find_log (LiteratureManager.new cfg) fs tid = .ok x →
      is_reference_complete cfg fs tid = .ok (x.1.status == .completed)) ∧
    (∀ e1 e2 x, find_log (HypothesisManager.new cfg) fs tid = .error e1 →
      find_log (LiteratureManager.new cfg) fs tid = .error e2 →
      find_log (KnowledgeManager.new cfg) fs tid = .ok x →
      is_reference_complete cfg fs tid = .ok (x.1.status == .published)) ∧
    (∀ e1 e2 e3, find_log (HypothesisManager.new cfg) fs tid = .error e1 →
      find_log (LiteratureManager.new cfg) fs tid = .error e2 →
      find_log (KnowledgeManager.new cfg) fs tid = .error e3 →
      is_reference_complete cfg fs tid = .error .notFound) ∧
    (∀ sid tuuid, uuid_parse tid = some tuuid →
      is_reference_complete cfg fs tid = .ok false →
      force_add_reference cfg fs sid tid =
        .error .incompleteRefWarning) ∧
    (∀ sid tuuid x, uuid_parse tid = some tuuid →
      is_reference_complete cfg fs tid = .ok true →
      find_log (HypothesisManager.new cfg) fs sid = .ok x →
      force_add_reference cfg fs sid tid =
        update_log (HypothesisManager.new cfg) fs
          (hypOps.withRefs x.1 (refs_insert x.1.base.references tuuid))
          x.2) ∧
    (∀ sid tuuid e1 x, uuid_parse tid = some tuuid →
      is_reference_complete cfg fs tid = .ok true →
      find_log (HypothesisManager.new cfg) fs sid = .error e1 →
      find_log (LiteratureManager.new cfg) fs sid = .ok x →
      force_add_reference cfg fs sid tid =
        update_log (LiteratureManager.new cfg) fs
          (litOps.withRefs x.1 (refs_insert x.1.base.references tuuid))
          x.2) ∧
    (∀ sid tuuid e1 e2 x, uuid_parse tid = some tuuid →
      is_reference_complete cfg fs tid = .ok true →
      find_log (HypothesisManager.new cfg) fs sid = .error e1 →
      find_log (LiteratureManager.new cfg) fs sid = .error e2 →
      find_log (KnowledgeManager.new cfg) fs sid = .ok x →
      force_add_reference cfg fs sid tid =
        update_log (KnowledgeManager.new cfg) fs
          (knoOps.withRefs x.1 (refs_insert x.1.base.references tuuid))
          x.2) := by
  refine ⟨?_, ?_, ?_, ?_, ?_, ?_, ?_, ?_⟩
  · intro x hx
    simp only [is_reference_complete, hx]
  · intro e1 x h1 hx
    simp only [is_reference_complete, h1, hx]
  · intro e1 e2 x h1 h2 hx
    simp only [is_reference_complete, h1, h2, hx]
  · intro e1 e2 e3 h1 h2 h3
    simp only [is_reference_complete, h1, h2, h3]
  · intro sid tuuid hpar hcomp
    simp only [force_add_reference, hpar, hcomp]
  · intro sid tuuid x hpar hcomp hx
    simp only [force_add_reference, hpar, hcomp, hx]
  · intro sid tuuid e1 x hpar hcomp h1 hx
    simp only [force_add_reference, hpar, hcomp, h1, hx]
  · intro sid tuuid e1 e2 x hpar hcomp h1 h2 hx
    simp only [force_add_reference, hpar, hcomp, h1, h2, hx]

/-- Witness for C8 on the concrete store: referencing the in-progress
review is refused with the advisory warning; referencing the completed
review from the stored hypothesis goes through to the persisting
`update_log`. -/
theorem force_add_reference_gating_wit :
    force_add_reference Config.default fsW uuidH uuidL2 =
      .error .incompleteRefWarning ∧
    force_add_reference Config.default fsW uuidH uuidL =
      update_log (HypothesisManager.new Config.default) fsW
        (hypOps.withRefs hyp1 (refs_insert hyp1.base.references uuidL))
        pHyp1 := by
  constructor
  · exact (force_add_reference_gating Config.default fsW
      uuidL2).2.2.2.2.1 uuidH uuidL2 rfl rfl
  · exact (force_add_reference_gating Config.default fsW
      uuidL).2.2.2.2.2.1 uuidH uuidL (hyp1, pHyp1) rfl rfl rfl

/-- A file listed for a directory is a stored md file of that directory. -/
theorem mem_list_entries {fs : FS} {dir : FPath} {e : FPath × FileEntry}
    (h : e ∈ list_entries fs dir) :
    e ∈ fs ∧ e.1.dropLast = dir ∧ has_md_ext (e.1.getLastD "") = true := by
  have h2 := List.mem_filter.mp h
  refine ⟨h2.1, ?_, ?_⟩
  · have := ((Bool.and_eq_true _ _).mp h2.2).1
    simpa using this
  · exact ((Bool.and_eq_true _ _).mp h2.2).2

/-- A file surviving `FS.erase` was stored and is not at the erased path. -/
theorem mem_fs_erase {fs : FS} {p : FPath} {e : FPath × FileEntry}
    (h : e ∈ FS.erase fs p) : e ∈ fs ∧ e.1 ≠ p := by
  have h2 := List.mem_filter.mp h
  exact ⟨h2.1, by simpa using h2.2⟩

/-- A scan over files that all parse succeeds, and every scanned record
comes from one of the scanned files. -/
theorem scanList_ok_of {T S : Type} (ops : KindOps T S)
    (l : List (FPath × FileEntry))
    (h : ∀ e ∈ l, ∃ t bb, ops.proj e.2 = some (t, bb)) :
    ∃ out, scanList ops l = .ok out ∧
      ∀ x ∈ out, ∃ e ∈ l, ops.proj e.2 = some (x.1, x.2.1) ∧ x.2.2 = e.1 := by
  induction l with
  | nil => exact ⟨[], rfl, fun x hx => absurd hx (List.not_mem_nil x)⟩
  | cons e rest ih =>
    obtain ⟨t, bb, hp⟩ := h e (List.mem_cons_self e rest)
    obtain ⟨out, hout, hmem⟩ :=
      ih (fun x hx => h x (List.mem_cons_of_mem e hx))
    refine ⟨(t, bb, e.1) :: out, ?_, ?_⟩
    · simp only [scanList, hp, hout]
    · intro x hx
      rcases List.mem_cons.mp hx with hx | hx
      · subst hx
        exact ⟨e, List.mem_cons_self e rest, hp, rfl⟩
      · obtain ⟨e2, he2, hpe2, hxe2⟩ := hmem x hx
        exact ⟨e2, List.mem_cons_of_mem e he2, hpe2, hxe2⟩

/-- After a relocation whose target parent directory lies outside the
search scope, and provided every other in-scope file of the store parses to
this kind with an id that does not extend the given id, lookup by that id is
NotFound and no listing contains a record with such an id. -/
theorem relocated_out_of_scope {T S : Type} (m : LogManager T S) (fs : FS)
    (p np : FPath) (ne2 : FileEntry) (idstr : String)
    (hnp : np.dropLast ∉ m.search_dirs)
    (hother : ∀ q e2, (q, e2) ∈ fs → q ≠ p →
      q.dropLast ∈ m.search_dirs → has_md_ext (q.getLastD "") = true →
      ∃ t bb, m.ops.proj e2 = some (t, bb) ∧
        str_starts_with (m.ops.base t).id idstr = false) :
    find_log m ((fs.erase p).erase np ++ [(np, ne2)]) idstr =
      .error .notFound ∧
    ∀ st tg out,
      list_logs m ((fs.erase p).erase np ++ [(np, ne2)]) st tg = .ok out →
      ∀ lg ∈ out, str_starts_with (m.ops.base lg).id idstr = false := by
  have hscoped : ∀ e2 ∈ m.search_dirs.flatMap
      (fun d => list_entries ((fs.erase p).erase np ++ [(np, ne2)]) d),
      ∃ t bb, m.ops.proj e2.2 = some (t, bb) ∧
        str_starts_with (m.ops.base t).id idstr = false := by
    intro e2 he2
    obtain ⟨dir, hdir, hin⟩ := List.mem_flatMap.mp he2
    obtain ⟨hmem2, hdrop, hmd⟩ := mem_list_entries hin
    rcases List.mem_append.mp hmem2 with hmem2 | hmem2
    · obtain ⟨hmem3, _⟩ := mem_fs_erase hmem2
      obtain ⟨hmem4, hne_p⟩ := mem_fs_erase hmem3
      exact hother e2.1 e2.2 hmem4 hne_p (hdrop ▸ hdir) hmd
    · exfalso
      have he2np : e2 = (np, ne2) := by simpa using hmem2
      have hnd : np.dropLast = dir := by
        rw [← hdrop, he2np]
      apply hnp
      rw [hnd]
      exact hdir
  obtain ⟨out0, hout0, hcome⟩ := scanList_ok_of m.ops _
    (fun e2 he2 => (hscoped e2 he2).imp
      (fun t ht => ht.imp (fun bb hbb => hbb.1)))
  have hall : ∀ x ∈ out0, str_starts_with (m.ops.base x.1).id idstr = false := by
    intro x hx
    obtain ⟨e2, he2, hpe2, _⟩ := hcome x hx
    obtain ⟨t, bb, hpt, hfalse⟩ := hscoped e2 he2
    rw [hpe2] at hpt
    have : x.1 = t := (Prod.mk.injEq _ _ _ _).mp (Option.some.inj hpt) |>.1
    rw [this]
    exact hfalse
  have hscanAll : scanAll m ((fs.erase p).erase np ++ [(np, ne2)]) =
      .ok out0 := hout0
  constructor
  · have hfilter : out0.filter
        (fun x => str_starts_with (m.ops.base x.1).id idstr) = [] :=
      List.filter_eq_nil_iff.mpr (fun a ha => by simp [hall a ha])
    simp only [find_log, hscanAll, hfilter]
    rfl
  · intro st tg out hout
    simp only [list_logs, hscanAll] at hout
    cases hout
    intro lg hlg
    obtain ⟨x, hx, hx1⟩ := List.mem_map.mp hlg
    rw [← hx1]
    exact hall x (List.mem_of_mem_filter hx)

/-- C10: a kind's search scope excludes its archive location — the
Hypothesis engine scans only the active root and knowledge-base/hypotheses,
the Literature engine only active/literature and knowledge-base/literature
— so once a hypothesis is updated to Abandoned (archive root) or a
literature review to Archived (archive/literature), `find_log` with the
document's full id fails with NotFound and `list_logs` never returns it. -/
theorem archive_outside_search_scope (cfg : Config) :
    (HypothesisManager.new cfg).search_dirs =
      [cfg.storage.active_dir,
       cfg.storage.knowledge_base_dir ++ ["hypotheses"]] ∧
    (LiteratureManager.new cfg).search_dirs =
      [cfg.storage.active_dir ++ ["literature"],
       cfg.storage.knowledge_base_dir ++ ["literature"]] ∧
    (∀ (fs : FS) (b : BaseLog) (d : FPath) (fn : String)
        (old : HypothesisLog) (body : String),
      FS.get fs (d ++ [fn]) = some (.hyp old body) →
      cfg.storage.archive_dir ≠ cfg.storage.active_dir →
      cfg.storage.archive_dir ≠
        cfg.storage.knowledge_base_dir ++ ["hypotheses"] →
      (∀ q e2, (q, e2) ∈ fs → q ≠ d ++ [fn] →
        q.dropLast ∈ (HypothesisManager.new cfg).search_dirs →
        has_md_ext (q.getLastD "") = true →
        ∃ t bb, hypOps.proj e2 = some (t, bb) ∧
          str_starts_with t.base.id b.id = false) →
      ∃ fs2, update_log (HypothesisManager.new cfg) fs ⟨b, .abandoned⟩
          (d ++ [fn]) = .ok fs2 ∧
        find_log (HypothesisManager.new cfg) fs2 b.id = .error .notFound ∧
        ∀ st tg out,
          list_logs (HypothesisManager.new cfg) fs2 st tg = .ok out →
          ∀ lg ∈ out, str_starts_with lg.base.id b.id = false) ∧
    (∀ (fs : FS) (b : BaseLog) (src : Source) (d : FPath) (fn : String)
        (old : LiteratureLog) (body : String),
      FS.get fs (d ++ [fn]) = some (.lit old body) →
      cfg.storage.archive_dir ≠ cfg.storage.active_dir →
      cfg.storage.archive_dir ≠ cfg.storage.knowledge_base_dir →
      (∀ q e2, (q, e2) ∈ fs → q ≠ d ++ [fn] →
        q.dropLast ∈ (LiteratureManager.new cfg).search_dirs →
        has_md_ext (q.getLastD "") = true →
        ∃ t bb, litOps.proj e2 = some (t, bb) ∧
          str_starts_with t.base.id b.id = false) →
      ∃ fs2, update_log (LiteratureManager.new cfg) fs ⟨b, .archived, src⟩
          (d ++ [fn]) = .ok fs2 ∧
        find_log (LiteratureManager.new cfg) fs2 b.id = .error .notFound ∧
        ∀ st tg out,
          list_logs (LiteratureManager.new cfg) fs2 st tg = .ok out →
          ∀ lg ∈ out, str_starts_with lg.base.id b.id = false) := by
  refine ⟨rfl, rfl, ?_, ?_⟩
  · intro fs b d fn old body hget hda hdk hother
    have htgt : HypothesisLog.get_target_path ⟨b, .abandoned⟩ cfg
        (d ++ [fn]) = some (cfg.storage.archive_dir ++ [fn]) := by
      simp only [HypothesisLog.get_target_path, List.getLast?_concat]
      rfl
    refine ⟨_, update_log_hyp_eq cfg fs ⟨b, .abandoned⟩ (d ++ [fn]) old body
      _ hget htgt, ?_⟩
    have hnp : (cfg.storage.archive_dir ++ [fn]).dropLast ∉
        (HypothesisManager.new cfg).search_dirs := by
      rw [List.dropLast_concat]
      intro hmem
      rcases List.mem_cons.mp hmem with hmem | hmem
      · exact hda hmem
      · exact hdk (by simpa using hmem)
    exact relocated_out_of_scope (HypothesisManager.new cfg) fs (d ++ [fn])
      (cfg.storage.archive_dir ++ [fn]) (.hyp ⟨b, .abandoned⟩ body) b.id
      hnp hother
  · intro fs b src d fn old body hget hda hdk hother
    have htgt : LiteratureLog.get_target_path ⟨b, .archived, src⟩ cfg
        (d ++ [fn]) =
        some ((cfg.storage.archive_dir ++ ["literature"]) ++ [fn]) := by
      simp only [LiteratureLog.get_target_path, List.getLast?_concat]
      simp [List.append_assoc]
    have hupd : update_log (LiteratureManager.new cfg) fs ⟨b, .archived, src⟩
        (d ++ [fn]) =
        .ok (((fs.erase (d ++ [fn])).erase
            ((cfg.storage.archive_dir ++ ["literature"]) ++ [fn])) ++
          [((cfg.storage.archive_dir ++ ["literature"]) ++ [fn],
            .lit ⟨b, .archived, src⟩ body)]) := by
      simp only [update_log, hget, LiteratureManager.new, litOps, htgt]
    refine ⟨_, hupd, ?_⟩
    have hnp : ((cfg.storage.archive_dir ++ ["literature"]) ++ [fn]).dropLast ∉
        (LiteratureManager.new cfg).search_dirs := by
      rw [List.dropLast_concat]
      intro hmem
      rcases List.mem_cons.mp hmem with hmem | hmem
      · exact hda (List.append_cancel_right hmem)
      · have hmem2 : cfg.storage.archive_dir ++ ["literature"] =
            cfg.storage.knowledge_base_dir ++ ["literature"] := by
          simpa using hmem
        exact hdk (List.append_cancel_right hmem2)
    exact relocated_out_of_scope (LiteratureManager.new cfg) fs (d ++ [fn])
      ((cfg.storage.archive_dir ++ ["literature"]) ++ [fn])
      (.lit ⟨b, .archived, src⟩ body) b.id hnp hother

/-- Witness for C10 on concrete one-document stores: abandoning the
hypothesis and archiving the literature review make them unreachable by
`find_log` and invisible to `list_logs`. -/
theorem archive_outside_search_scope_wit :
    (∃ fs2, update_log (HypothesisManager.new Config.default) fsH
        ⟨hyp1.base, .abandoned⟩
        (["research-logs"] ++ ["2024-01-02-photon-entanglement-decay.md"]) =
        .ok fs2 ∧
      find_log (HypothesisManager.new Config.default) fs2 hyp1.base.id =
        .error .notFound ∧
      ∀ st tg out,
        list_logs (HypothesisManager.new Config.default) fs2 st tg =
          .ok out →
        ∀ lg ∈ out, str_starts_with lg.base.id hyp1.base.id = false) ∧
    (∃ fs2, update_log (LiteratureManager.new Config.default) fsL
        ⟨lit2.base, .archived, Source.default⟩
        (["research-logs", "literature"] ++ ["2024-01-04-paper-two.md"]) =
        .ok fs2 ∧
      find_log (LiteratureManager.new Config.default) fs2 lit2.base.id =
        .error .notFound ∧
      ∀ st tg out,
        list_logs (LiteratureManager.new Config.default) fs2 st tg =
          .ok out →
        ∀ lg ∈ out, str_starts_with lg.base.id lit2.base.id = false) := by
  constructor
  · refine (archive_outside_search_scope Config.default).2.2.1 fsH hyp1.base
      ["research-logs"] "2024-01-02-photon-entanglement-decay.md" hyp1 "b1"
      rfl (by decide) (by decide) ?_
    rintro q e2 hq hne - -
    exfalso
    have hq2 : (q, e2) = (pHyp1, FileEntry.hyp hyp1 "b1") := by
      simpa [fsH] using hq
    cases hq2
    exact hne rfl
  · refine (archive_outside_search_scope Config.default).2.2.2 fsL lit2.base
      Source.default ["research-logs", "literature"] "2024-01-04-paper-two.md"
      lit2 "b3" rfl (by decide) (by decide) ?_
    rintro q e2 hq hne - -
    exfalso
    have hq2 : (q, e2) = (pLit2, FileEntry.lit lit2 "b3") := by
      simpa [fsL] using hq
    cases hq2
    exact hne rfl

/-- A leading newline never interferes with the left trim. -/
theorem dropWhile_ws_cons_newline (u : List Char) :
    ('\n' :: u).dropWhile Char.isWhitespace =
      u.dropWhile Char.isWhitespace := by
  simp [List.dropWhile_cons]

/-- Rust `trim` absorbs a leading newline. -/
theorem trimL_cons_newline (u : List Char) : trimL ('\n' :: u) = trimL u := by
  simp only [trimL, dropWhile_ws_cons_newline]

/-- Rust `trim` absorbs a trailing newline. -/
theorem trimL_append_newline (u : List Char) :
    trimL (u ++ ['\n']) = trimL u := by
  unfold trimL
  rcases hdw : u.dropWhile Char.isWhitespace with _ | ⟨c, v⟩
  · rw [List.dropWhile_append, hdw]
    simp
  · rw [List.dropWhile_append, hdw]
    simp only [List.isEmpty_cons, if_false, Bool.false_eq_true]
    rw [List.reverse_append]
    simp [dropWhile_ws_cons_newline]

/-- Rust `trim` absorbs the newlines `update_markdown_frontmatter` puts around
the serialized header. -/
theorem trimL_wrap (u : List Char) : trimL ('\n' :: (u ++ ['\n'])) = trimL u := by
  rw [trimL_cons_newline, trimL_append_newline]

/-- Being no `---` prefix is stable when the text past the closing newline
changes: the separator is three hyphens and a newline is not a hyphen. -/
theorem isPrefixOf_h3_newline_end (c : Char) (u rest : List Char)
    (h : hyphen3.isPrefixOf (c :: (u ++ ['\n'])) = false) :
    hyphen3.isPrefixOf (c :: (u ++ '\n' :: rest)) = false := by
  rcases u with _ | ⟨d, _ | ⟨e, u2⟩⟩
  · simp [hyphen3, List.isPrefixOf]
  · simp [hyphen3, List.isPrefixOf]
  · simpa [hyphen3, List.isPrefixOf] using h

/-- The separator is found immediately at the head of `--- ++ w`. -/
theorem findSplit_h3_head (w : List Char) :
    findSplit hyphen3 (hyphen3 ++ w) = some ([], w) := by
  simp [findSplit, hyphen3, List.isPrefixOf]

/-- When the header block holds no separator, the first separator found
after it is the explicit closing `---`. -/
theorem findSplit_h3_through (u w : List Char)
    (hu : findSplit hyphen3 (u ++ ['\n']) = none) :
    findSplit hyphen3 (u ++ '\n' :: (hyphen3 ++ w)) =
      some (u ++ ['\n'], w) := by
  induction u with
  | nil =>
    simp only [List.nil_append]
    have hhead := findSplit_h3_head w
    simp only [findSplit, hyphen3, List.isPrefixOf]
    simp only [hyphen3] at hhead
    simp [hhead]
  | cons c u2 ih =>
    simp only [List.cons_append, findSplit, List.append_eq] at hu
    rcases hp : hyphen3.isPrefixOf (c :: (u2 ++ ['\n'])) with _ | _
    · rw [hp] at hu
      simp only [Bool.false_eq_true, if_false, Option.map_eq_none'] at hu
      have hrec := ih hu
      have hpre := isPrefixOf_h3_newline_end c u2 (hyphen3 ++ w) hp
      simp only [List.cons_append, findSplit, List.append_eq, hpre,
        Bool.false_eq_true, if_false, hrec, Option.map_some]
      rfl
    · rw [hp] at hu
      simp at hu

/-- Splitting the merged document on the first two separators yields the
empty lead, the wrapped header and the newline-led body. -/
theorem splitn_update (y b : List Char)
    (hy : findSplit hyphen3 (('\n' :: y) ++ ['\n']) = none) :
    splitn 3 hyphen3
        (hyphen3 ++ '\n' :: (y ++ '\n' :: (hyphen3 ++ '\n' :: b))) =
      [[], ('\n' :: y) ++ ['\n'], '\n' :: b] := by
  have h1 := findSplit_h3_head ('\n' :: (y ++ '\n' :: (hyphen3 ++ '\n' :: b)))
  have h2 := findSplit_h3_through ('\n' :: y) ('\n' :: b) hy
  simp only [List.cons_append] at h2
  show splitn (1 + 2) hyphen3 _ = _
  rw [splitn, h1]
  show _ :: splitn (0 + 2) hyphen3 _ = _
  rw [splitn, h2]
  rfl

/-- C3 (amended): merging a record over a body and extracting again
succeeds and returns a semantically equal header together with the TRIMMED
body, provided the serialized header (with its wrapping newlines) contains
no `---` occurrence; the body is byte-equal exactly when it carries no
leading or trailing whitespace. -/
theorem extract_update_roundtrip {H : Type} (ser : H → List Char)
    (par : List Char → Option H) (r : H) (b : List Char)
    (hpar : par (trimL (ser r)) = some r)
    (hsep : findSplit hyphen3 (('\n' :: ser r) ++ ['\n']) = none) :
    extract_frontmatter par (update_markdown_frontmatter ser r b) =
      .ok (r, trimL b) := by
  unfold extract_frontmatter update_markdown_frontmatter
  rw [splitn_update (ser r) b hsep]
  have hyaml : trimL (('\n' :: ser r) ++ ['\n']) = trimL (ser r) := by
    rw [List.cons_append, trimL_wrap]
  show (match par (trimL (('\n' :: ser r) ++ ['\n'])) with
    | some fm => Except.ok (fm, trimL ('\n' :: b))
    | none => Except.error Err.formatErr) = _
  rw [hyaml, hpar, trimL_cons_newline]

/-- Witness for C3 at the concrete one-field codec fixture with an already
trimmed body. -/
theorem extract_update_roundtrip_wit :
    extract_frontmatter par0 (update_markdown_frontmatter ser0 () ['x']) =
      .ok ((), ['x']) :=
  extract_update_roundtrip ser0 par0 () ['x'] rfl rfl

/-- Counterexample to C3 as stated, exhibiting both failure modes the
amendment accounts for.  First, a body with leading whitespace comes back
trimmed, so the returned body is not byte-equal to the input.  Second, a
record whose serialized header contains a `---` occurrence (here the field
value a---b, with a parser that round-trips that serialization
semantically) makes extraction fail outright with a FormatError, because
`splitn(3, "---")` cuts the document inside the header. -/
theorem extract_update_body_trimmed_cex :
    (extract_frontmatter par0 (update_markdown_frontmatter ser0 ()
        [' ', 'x']) = .ok ((), ['x']) ∧
      [' ', 'x'] ≠ ['x']) ∧
    (par1 (trimL (ser1 ())) = some () ∧
      extract_frontmatter par1 (update_markdown_frontmatter ser1 () ['x']) =
        .error .formatErr) :=
  ⟨⟨rfl, by decide⟩, ⟨rfl, rfl⟩⟩

end Dxlog
